import Mathlib

set_option maxRecDepth 100000
set_option synthInstance.maxSize 2000

/-!
Verification of the `build-your-own-web-server` repository (TypeScript).

The development shallowly embeds the most developed iteration of the server
(the HTTP/1.1 engine of `src/echo_server.ts`, whose helpers `dynamic_buffer.ts`
and `socket.ts` are included in the same concatenated source file) into Lean:

* bytes are `Nat` codepoints (the code uses latin1, so ASCII literals map
  one-to-one);
* a Node `Buffer` is a `List Nat`;
* the dynamic buffer `DynBuf` keeps the whole backing store (`data`, whose
  length is the capacity) plus the logical `length`, exactly as the source;
* the TCP connection is the list of future `soRead` deliveries; an exhausted
  list delivers `[]` (EOF), matching the sticky EOF of `soRead`;
* `async` functions become state-passing functions; the two loops that the
  source can spin forever in (`serveClient`, `readChunks`) take fuel and
  return `none` when it runs out.

Every definition is translated from the TypeScript source, including its
off-by-one in `splitLines` (each line keeps its trailing `\r` byte), the
busy-wait `continue` of `readChunks`, and `readerFromConnEOF` returning the
whole backing store.
-/

deriving instance DecidableEq for Except

/-- Byte list of an ASCII/latin1 string literal (the code reads and writes
`latin1` encoded strings, which for the literals used are the codepoints). -/
def latin1 (s : String) : List Nat := s.data.map Char.toNat

/-- Does `pat` occur at the head of `hay`? Mirrors a successful
`Buffer.indexOf` match at offset 0. -/
def matchesAt (pat hay : List Nat) : Bool := decide (hay.take pat.length = pat)

/-- `Buffer.indexOf`: index of the first occurrence of the byte sequence
`pat` inside `hay`, `none` when absent (the source checks `idx < 0`). -/
def findSub (hay pat : List Nat) : Option Nat :=
  if matchesAt pat hay then some 0
  else
    match hay with
    | [] => none
    | _ :: t => (findSub t pat).map (· + 1)

/-- Maximum length of an http header (`kMaxHeaderLen = 1024 * 8`). -/
def kMaxHeaderLen : Nat := 1024 * 8

/-- JS `parseInt` whitespace class over latin1 bytes: tab, line feed,
vertical tab, form feed, carriage return, space and no-break space (0xA0).
The remaining JS StrWhiteSpace code points lie above 0xFF and cannot occur
in a byte. -/
def jsWhitespace (b : Nat) : Bool :=
  b = 32 || b = 9 || b = 10 || b = 11 || b = 12 || b = 13 || b = 160

/-- Accumulate the leading decimal digits, stopping at the first non-digit,
like `parseInt` does after its first character. -/
def digitsAcc : Nat → List Nat → Nat
  | acc, [] => acc
  | acc, b :: r => if 48 ≤ b ∧ b ≤ 57 then digitsAcc (acc * 10 + (b - 48)) r else acc

/-- Leading digit run of a byte list; `none` when the first byte is not a
digit (`parseInt` returns `NaN` there). -/
def leadDigits : List Nat → Option Nat
  | [] => none
  | b :: r => if 48 ≤ b ∧ b ≤ 57 then some (digitsAcc (b - 48) r) else none

/-- Value of one hexadecimal digit byte (`0-9`, `a-f`, `A-F`). -/
def hexDigitVal (b : Nat) : Option Nat :=
  if 48 ≤ b ∧ b ≤ 57 then some (b - 48)
  else if 97 ≤ b ∧ b ≤ 102 then some (b - 87)
  else if 65 ≤ b ∧ b ≤ 70 then some (b - 55)
  else none

/-- Accumulate the leading hexadecimal digits, stopping at the first
non-hex-digit. -/
def hexDigitsAcc : Nat → List Nat → Nat
  | acc, [] => acc
  | acc, b :: r =>
    match hexDigitVal b with
    | some d => hexDigitsAcc (acc * 16 + d) r
    | none => acc

/-- Leading hexadecimal digit run; `none` when the first byte is not a hex
digit (so `0x` with no digit after it is `NaN`). -/
def leadHexDigits : List Nat → Option Nat
  | [] => none
  | b :: r =>
    match hexDigitVal b with
    | some d => some (hexDigitsAcc d r)
    | none => none

/-- The unsigned part of JS `parseInt` with no radix argument: a `0x` or
`0X` prefix switches to hexadecimal, otherwise the longest run of decimal
digits is taken. -/
def unsignedIntJS (s : List Nat) : Option Nat :=
  match s with
  | 48 :: 120 :: r => leadHexDigits r
  | 48 :: 88 :: r => leadHexDigits r
  | _ => leadDigits s

/-- `parseDec` of the source is `parseInt(decimal)` with no radix: skip JS
whitespace, an optional sign, then either a `0x`/`0X`-prefixed hexadecimal
run or the longest run of decimal digits; `none` models `NaN`. -/
def parseDec (s : List Nat) : Option Int :=
  match s.dropWhile jsWhitespace with
  | 45 :: r => (unsignedIntJS r).map (fun n => -(n : Int))
  | 43 :: r => (unsignedIntJS r).map (fun n => (n : Int))
  | r => (unsignedIntJS r).map (fun n => (n : Int))

/-- One decimal digit to its ASCII code. -/
def decDigit (d : Nat) : Nat := 48 + d

/-- Structural worker for `decRep`: the fuel only bounds the digit count
(`n / 10` shrinks strictly, so `n + 1` steps always suffice). -/
def decRepAux : Nat → Nat → List Nat
  | 0, _ => []
  | fuel + 1, n => if n < 10 then [decDigit n] else decRepAux fuel (n / 10) ++ [decDigit (n % 10)]

/-- Decimal representation of a number as ASCII bytes (JS template
interpolation of a non-negative integer). -/
def decRep (n : Nat) : List Nat := decRepAux (n + 1) n

/-- One hexadecimal digit to its ASCII code, lowercase as in JS
`Number.toString(16)`. -/
def hexDigit (d : Nat) : Nat := if d < 10 then 48 + d else 87 + d

/-- Structural worker for `hexRep`; as with `decRepAux` the fuel `n + 1` is
always enough. -/
def hexRepAux : Nat → Nat → List Nat
  | 0, _ => []
  | fuel + 1, n => if n < 16 then [hexDigit n] else hexRepAux fuel (n / 16) ++ [hexDigit (n % 16)]

/-- Hexadecimal representation as ASCII bytes, lowercase
(`data.length.toString(16)`). -/
def hexRep (n : Nat) : List Nat := hexRepAux (n + 1) n

/-! ## Dynamic buffer (`dynamic_buffer.ts`) -/

/-- The dynamic buffer: `data` is the whole backing store (its length is the
capacity), `length` the count of valid bytes at the front. -/
structure DynBuf where
  data : List Nat
  length : Nat
deriving DecidableEq, Repr

/-- The valid bytes `[0, length)` of the buffer, what
`buf.data.subarray(0, buf.length)` denotes. -/
def bufData (buf : DynBuf) : List Nat := buf.data.take buf.length

/-- Structural worker for the capacity growth loop of `bufPush`: double
`cap` until it reaches `newLen`, with fuel bounding the iteration count. -/
def growCapAux : Nat → Nat → Nat → Nat
  | 0, cap, _ => cap
  | fuel + 1, cap, newLen => if cap < newLen then growCapAux fuel (cap * 2) newLen else cap

/-- Capacity growth loop of `bufPush` (`while (cap < newLen) cap *= 2`).
The source always starts from `cap = max(capacity, 32) ≥ 32`, and a
positive `cap` doubles past `newLen` within `newLen` iterations
(`newLen < 2 ^ newLen`), so the fuel `newLen` makes the fueled worker equal
to the unbounded loop on every real call. -/
def growCap (cap newLen : Nat) : Nat := growCapAux newLen cap newLen

/-- `bufPush(buf, data)`: grow the store when the new length exceeds the
capacity (doubling from a floor of 32, copying the old store into a fresh
zeroed allocation), then copy `d` in at offset `length`. -/
def bufPush (buf : DynBuf) (d : List Nat) : DynBuf :=
  let newLen := buf.length + d.length
  let store :=
    if buf.data.length < newLen then
      buf.data ++ List.replicate (growCap (max buf.data.length 32) newLen - buf.data.length) 0
    else buf.data
  { data := store.take buf.length ++ d ++ store.drop (buf.length + d.length),
    length := newLen }

/-- `bufPop(buf, n)`: `copyWithin(0, n, length)` relocates the bytes
`[n, length)` to the front of the store, then the logical length shrinks. -/
def bufPop (buf : DynBuf) (n : Nat) : DynBuf :=
  let seg := (buf.data.drop n).take (buf.length - n)
  { data := seg ++ buf.data.drop seg.length, length := buf.length - n }

/-! ### Buffer lemmas -/

theorem growCapAux_ge : ∀ (f cap n : Nat), cap ≤ growCapAux f cap n := by
  intro f
  induction f with
  | zero => intro cap n; exact Nat.le_refl _
  | succ g ih =>
    intro cap n
    rw [growCapAux]
    split
    · exact Nat.le_trans (by omega) (ih (cap * 2) n)
    · exact Nat.le_refl _

theorem growCap_ge (cap n : Nat) : cap ≤ growCap cap n := growCapAux_ge n cap n

theorem growCapAux_reaches : ∀ (f cap n : Nat), 0 < cap → n ≤ cap * 2 ^ f →
    n ≤ growCapAux f cap n := by
  intro f
  induction f with
  | zero => intro cap n _ h2; simpa using h2
  | succ g ih =>
    intro cap n h1 h2
    rw [growCapAux]
    split
    next =>
      refine ih (cap * 2) n (by omega) ?_
      calc n ≤ cap * 2 ^ (g + 1) := h2
        _ = cap * 2 * 2 ^ g := by ring
    next h3 => omega

theorem growCap_ge_target (cap n : Nat) (h : 0 < cap) : n ≤ growCap cap n := by
  refine growCapAux_reaches n cap n h ?_
  have h2 : n < 2 ^ n := Nat.lt_two_pow n
  calc n ≤ 2 ^ n := Nat.le_of_lt h2
    _ = 1 * 2 ^ n := (Nat.one_mul _).symm
    _ ≤ cap * 2 ^ n := Nat.mul_le_mul_right _ h

theorem growCapAux_pow : ∀ (f cap n : Nat), ∃ k, growCapAux f cap n = cap * 2 ^ k := by
  intro f
  induction f with
  | zero => intro cap n; exact ⟨0, by simp [growCapAux]⟩
  | succ g ih =>
    intro cap n
    rw [growCapAux]
    split
    · obtain ⟨k, hk⟩ := ih (cap * 2) n
      exact ⟨k + 1, by rw [hk]; ring⟩
    · exact ⟨0, by simp⟩

theorem growCap_pow (cap n : Nat) : ∃ k, growCap cap n = cap * 2 ^ k :=
  growCapAux_pow n cap n

theorem bufPush_length (buf : DynBuf) (d : List Nat) :
    (bufPush buf d).length = buf.length + d.length := rfl

theorem bufPush_storeLen (buf : DynBuf) (d : List Nat) :
    (bufPush buf d).data.length =
      if buf.data.length < buf.length + d.length then
        growCap (max buf.data.length 32) (buf.length + d.length)
      else buf.data.length := by
  have hstore :
      (if buf.data.length < buf.length + d.length then
          buf.data ++ List.replicate
            (growCap (max buf.data.length 32) (buf.length + d.length) - buf.data.length) 0
        else buf.data).length =
      (if buf.data.length < buf.length + d.length then
          growCap (max buf.data.length 32) (buf.length + d.length)
        else buf.data.length) := by
    split
    next h =>
      have hge : buf.length + d.length ≤ growCap (max buf.data.length 32) (buf.length + d.length) :=
        growCap_ge_target _ _ (by omega)
      have hge2 : buf.data.length ≤ max buf.data.length 32 := Nat.le_max_left _ _
      have := growCap_ge (max buf.data.length 32) (buf.length + d.length)
      simp [List.length_append, List.length_replicate]
      omega
    next => rfl
  have hbig : buf.length + d.length ≤
      (if buf.data.length < buf.length + d.length then
          buf.data ++ List.replicate
            (growCap (max buf.data.length 32) (buf.length + d.length) - buf.data.length) 0
        else buf.data).length := by
    rw [hstore]
    split
    next h => exact growCap_ge_target _ _ (by omega)
    next h => omega
  simp only [bufPush, List.length_append, List.length_take, List.length_drop]
  omega

theorem bufPush_cap_ge (buf : DynBuf) (d : List Nat) :
    buf.length + d.length ≤ (bufPush buf d).data.length := by
  rw [bufPush_storeLen]
  split
  next h => exact growCap_ge_target _ _ (by omega)
  next h => omega

theorem bufPush_cap_mono (buf : DynBuf) (d : List Nat) :
    buf.data.length ≤ (bufPush buf d).data.length := by
  rw [bufPush_storeLen]
  split
  next h =>
    exact Nat.le_trans (Nat.le_max_left _ 32) (growCap_ge _ _)
  next h => omega

theorem bufPush_data (buf : DynBuf) (d : List Nat) (hinv : buf.length ≤ buf.data.length) :
    bufData (bufPush buf d) = bufData buf ++ d := by
  have hstoreTake :
      (if buf.data.length < buf.length + d.length then
          buf.data ++ List.replicate
            (growCap (max buf.data.length 32) (buf.length + d.length) - buf.data.length) 0
        else buf.data).take buf.length = buf.data.take buf.length := by
    split
    next h => exact List.take_append_of_le_length hinv
    next => rfl
  simp only [bufPush, bufData]
  rw [hstoreTake]
  have hlen : (buf.data.take buf.length ++ d).length = buf.length + d.length := by
    simp [List.length_append, List.length_take]; omega
  exact List.take_left' hlen

theorem bufPop_storeLen (buf : DynBuf) (n : Nat) :
    (bufPop buf n).data.length = buf.data.length := by
  simp only [bufPop, List.length_append, List.length_take, List.length_drop]
  omega

theorem bufPop_length (buf : DynBuf) (n : Nat) :
    (bufPop buf n).length = buf.length - n := rfl

theorem bufPop_data (buf : DynBuf) (n : Nat)
    (hinv : buf.length ≤ buf.data.length) :
    bufData (bufPop buf n) = (bufData buf).drop n := by
  have hseglen : ((buf.data.drop n).take (buf.length - n)).length = buf.length - n := by
    simp [List.length_take, List.length_drop]; omega
  simp only [bufPop, bufData]
  rw [List.take_left' hseglen]
  rw [List.drop_take]

/-! ## HTTP data model (`echo_server.ts`) -/

/-- The `HTTPError` exception: a status code and a message. -/
structure HTTPError where
  code : Nat
  message : String
deriving DecidableEq, Repr

/-- Parsed http request: method, uri and version are raw byte strings
(latin1-decoded in the source), plus the ordered header lines. -/
structure HTTPReq where
  method : List Nat
  uri : List Nat
  version : List Nat
  headers : List (List Nat)
deriving DecidableEq, Repr

/-- State of the `readChunks` generator between `next()` calls. -/
inductive ChunkSt where
  /-- At the top of the outer loop, expecting a chunk-size line. -/
  | atSize : ChunkSt
  /-- Inside the inner loop with `remain > 0` bytes of the chunk left. -/
  | inChunk : Nat → ChunkSt
  /-- Suspended at the yield with the chunk consumed; on resumption the
  trailing CRLF is evicted and the outer loop restarts. -/
  | afterBody : ChunkSt
  /-- The generator has returned. -/
  | doneSt : ChunkSt
deriving DecidableEq, Repr

/-- The four body-reader strategies with the state each carries. -/
inductive BodySrc where
  /-- `readerFromConnLength`: remaining byte count. -/
  | connLength : Nat → BodySrc
  /-- `readerFromConnEOF`. -/
  | connEOF : BodySrc
  /-- `readerFromMemory`: the data and the `done` flag. -/
  | memory : List Nat → Bool → BodySrc
  /-- `readerFromGenerator` over `readChunks(conn, buf)`. -/
  | chunkGen : ChunkSt → BodySrc
  /-- `readerFromGenerator` over a pure generator (models `countSheep`,
  whose timer delays have no observable effect in this embedding): the
  chunks it will still yield. -/
  | pureGen : List (List Nat) → BodySrc
deriving DecidableEq, Repr

/-- `BodyReader`: the declared `length` field (fixed at construction, `-1`
meaning chunked/unknown) and the reading strategy. -/
structure BodyReader where
  length : Int
  src : BodySrc
deriving DecidableEq, Repr

/-- Http response value. -/
structure HTTPRes where
  code : Nat
  headers : List (List Nat)
  body : BodyReader
deriving DecidableEq, Repr

/-- Observable connection event: one `soRead` delivery or one `soWrite`. -/
inductive Ev where
  | rd : List Nat → Ev
  | wr : List Nat → Ev
deriving DecidableEq, Repr

/-- Per-connection state: the shared `DynBuf`, the queue of future transport
deliveries (exhausted queue = EOF, matching the sticky EOF of `soRead`),
and the trace of reads and writes performed so far. -/
structure SState where
  buf : DynBuf
  conn : List (List Nat)
  trace : List Ev
deriving DecidableEq, Repr

/-- Result of running `serveClient`: a clean return, a thrown `HTTPError`,
a thrown plain `Error`, or fuel exhaustion (the source loops forever). -/
inductive SrvRes where
  | clean : SrvRes
  | httpErr : Nat → String → SrvRes
  | ioErr : String → SrvRes
  | timeout : SrvRes
deriving DecidableEq, Repr

/-- `soRead`: pop the next delivery; an exhausted queue delivers the empty
buffer (EOF), as the real `soRead` does once `ended` is set. -/
def soReadS (s : SState) : List Nat × SState :=
  match s.conn with
  | [] => ([], { s with trace := s.trace ++ [Ev.rd []] })
  | d :: ds => (d, { s with conn := ds, trace := s.trace ++ [Ev.rd d] })

/-- `soWrite`: record the written bytes on the trace. -/
def soWriteS (d : List Nat) (s : SState) : SState :=
  { s with trace := s.trace ++ [Ev.wr d] }

/-! ## Header parsing -/

/-- Structural worker for `splitLines`: each iteration of the source loop
advances `idx1` by at least two bytes, so `data.length` iterations always
suffice and the fueled worker equals the unbounded loop. -/
def splitLinesAux : Nat → List Nat → List (List Nat)
  | 0, _ => []
  | fuel + 1, data =>
    match findSub data (latin1 "\r\n") with
    | none => []
    | some idx2 => data.take (idx2 + 1) :: splitLinesAux fuel (data.drop (idx2 + 2))

/-- `splitLines`: cut the block at each `\r\n`; faithful to the source
off-by-one, each produced line keeps its final `\r` byte
(`subarray(idx1, idx1 + idx2 + 1)` where `idx2` is the index of the `\r`). -/
def splitLines (data : List Nat) : List (List Nat) := splitLinesAux data.length data

/-- `parseRequestLine`: split on the first two spaces into method, uri and
version; the version is everything after the second space (so it keeps the
`HTTP/` prefix and, for lines produced by `splitLines`, the trailing `\r`). -/
def parseRequestLine (data : List Nat) :
    Except HTTPError (List Nat × List Nat × List Nat) :=
  match findSub data (latin1 " ") with
  | none => Except.error ⟨400, "No method in request line"⟩
  | some methodIdx =>
    match findSub (data.drop (methodIdx + 1)) (latin1 " ") with
    | none => Except.error ⟨400, "No uri in request line"⟩
    | some uriIdx =>
      Except.ok (data.take methodIdx,
        (data.drop (methodIdx + 1)).take uriIdx,
        data.drop (methodIdx + uriIdx + 2))

/-- `validateHeader`: the line must contain a colon. -/
def validateHeader (data : List Nat) : Bool := (findSub data (latin1 ":")).isSome

/-- `parseHTTPReq`: split into lines, parse the request line, validate and
collect the header lines `lines[1 .. length-2]`. The terminal
`console.assert` on the last line is a non-throwing log in Node and is not
modelled (its asserted property is examined separately). On an input with
no `\r\n` the source would crash on `undefined`; the framer only calls this
with the terminator present, and the embedding feeds `parseRequestLine` an
empty line in that unreachable case. -/
def parseHTTPReq (data : List Nat) : Except HTTPError HTTPReq :=
  match parseRequestLine ((splitLines data).headD []) with
  | Except.error e => Except.error e
  | Except.ok (method, uri, version) =>
    if (((splitLines data).drop 1).dropLast).all validateHeader then
      Except.ok ⟨method, uri, version, ((splitLines data).drop 1).dropLast⟩
    else Except.error ⟨400, "bad field"⟩

/-- `cutMessage` (http version): look for `\r\n\r\n` in the valid bytes; if
absent, error 413 at the ceiling or report "need more data"; if present,
parse the block (terminator included) and evict it. -/
def cutMessage (buf : DynBuf) : Except HTTPError (Option (HTTPReq × DynBuf)) :=
  match findSub (bufData buf) (latin1 "\r\n\r\n") with
  | none =>
    if kMaxHeaderLen ≤ buf.length then Except.error ⟨413, "header is too large"⟩
    else Except.ok none
  | some idx =>
    match parseHTTPReq ((bufData buf).take (idx + 4)) with
    | Except.error e => Except.error e
    | Except.ok msg => Except.ok (some (msg, bufPop buf (idx + 4)))

/-- `fieldGet`: scan the header lines; split each at its first colon; when
no colon exists the source computes `subarray(0, -1)` (all but the last
byte) as the name and `subarray(1)` as the value. The value skips the colon
and one further byte (`idx + 2`). -/
def fieldGet (headers : List (List Nat)) (key : List Nat) : Option (List Nat) :=
  match headers with
  | [] => none
  | h :: t =>
    match findSub h (latin1 ":") with
    | some i => if h.take i = key then some (h.drop (i + 2)) else fieldGet t key
    | none => if h.dropLast = key then some (h.drop 1) else fieldGet t key

/-! ## Body reader construction (`readerFromReq`) -/

/-- The `Content-Length` lookup and parse at the top of `readerFromReq`:
`-1` when absent, 400 when present but `NaN` under `parseInt`. -/
def bodyLenOf (headers : List (List Nat)) : Except HTTPError Int :=
  match fieldGet headers (latin1 "Content-Length") with
  | some v =>
    match parseDec v with
    | some n => Except.ok n
    | none => Except.error ⟨400, "bad Content-Length."⟩
  | none => Except.ok (-1)

/-- The chunked test of `readerFromReq`: the `Transfer-Encoding` value must
equal the exact bytes `chunked`. -/
def chunkedOf (headers : List (List Nat)) : Bool :=
  match fieldGet headers (latin1 "Transfer-Encoding") with
  | some v => decide (v = latin1 "chunked")
  | none => false

/-- `readerFromConnLength(conn, buf, remain)`: declared length is the
initial remaining count. -/
def readerFromConnLength (remain : Nat) : BodyReader :=
  ⟨(remain : Int), BodySrc.connLength remain⟩

/-- `readerFromConnEOF(conn, buf)`: declared length 0. -/
def readerFromConnEOF : BodyReader := ⟨0, BodySrc.connEOF⟩

/-- `readerFromMemory(data)`: declared length is the data length. -/
def readerFromMemory (d : List Nat) : BodyReader :=
  ⟨(d.length : Int), BodySrc.memory d false⟩

/-- `readerFromReq(conn, buf, req)`: parse `Content-Length`, compute
`bodyAllowed` and `chunked`, veto bodies on GET/HEAD, then pick the
fixed-length, chunked-generator or read-until-close strategy. The double
negation of the source (`bodyAllowed = !(GET || HEAD)` tested as
`!bodyAllowed`) is folded to the positive test. -/
def readerFromReq (req : HTTPReq) : Except HTTPError BodyReader :=
  match bodyLenOf req.headers with
  | Except.error e => Except.error e
  | Except.ok bodyLen0 =>
    if (req.method = latin1 "GET" ∨ req.method = latin1 "HEAD") ∧
        (0 < bodyLen0 ∨ chunkedOf req.headers = true) then
      Except.error ⟨400, "HTTP body not allowed."⟩
    else if 0 ≤ (if req.method = latin1 "GET" ∨ req.method = latin1 "HEAD"
                 then 0 else bodyLen0) then
      Except.ok (readerFromConnLength
        (if req.method = latin1 "GET" ∨ req.method = latin1 "HEAD"
         then (0 : Int) else bodyLen0).toNat)
    else if chunkedOf req.headers then Except.ok ⟨-1, BodySrc.chunkGen ChunkSt.atSize⟩
    else Except.ok readerFromConnEOF

/-! ## Body reading -/

/-- The `do { soRead; bufPush } while (length != 0)` loop of
`readerFromConnEOF.read`: consume deliveries until an empty one. -/
def eofLoop (buf : DynBuf) : List (List Nat) → List Ev → DynBuf × List (List Nat) × List Ev
  | [], tr => (bufPush buf [], [], tr ++ [Ev.rd []])
  | d :: ds, tr =>
    if d = [] then (bufPush buf d, ds, tr ++ [Ev.rd d])
    else eofLoop (bufPush buf d) ds (tr ++ [Ev.rd d])

/-- One `next()` of the `readChunks` generator, run with fuel for its
internal loops. Faithful points: when the buffer holds no complete
`\r\n`-terminated size line the source executes `continue` without reading
from the connection (a busy loop, hence the fuel); the size is parsed with
`parseDec` (JS `parseInt`, decimal); after a size-0 line and after each
chunk body two further bytes are evicted unconditionally. -/
def chunkNext : Nat → ChunkSt → SState → Option (Except String (List Nat × ChunkSt × SState))
  | 0, _, _ => none
  | _ + 1, ChunkSt.doneSt, s => some (Except.ok ([], ChunkSt.doneSt, s))
  | f + 1, ChunkSt.afterBody, s => chunkNext f ChunkSt.atSize { s with buf := bufPop s.buf 2 }
  | f + 1, ChunkSt.atSize, s =>
    match findSub (bufData s.buf) (latin1 "\r\n") with
    | none => chunkNext f ChunkSt.atSize s
    | some idx =>
      let sz := parseDec ((bufData s.buf).take idx)
      let s1 := { s with buf := bufPop s.buf (idx + 2) }
      match sz with
      | some n =>
        if n = 0 then some (Except.ok ([], ChunkSt.doneSt, { s1 with buf := bufPop s1.buf 2 }))
        else if 0 < n then chunkNext f (ChunkSt.inChunk n.toNat) s1
        else chunkNext f ChunkSt.atSize { s1 with buf := bufPop s1.buf 2 }
      | none => chunkNext f ChunkSt.atSize { s1 with buf := bufPop s1.buf 2 }
  | f + 1, ChunkSt.inChunk remain, s =>
    if s.buf.length = 0 then
      let (d, s1) := soReadS s
      if d = [] then some (Except.error "Unexpected EOF")
      else chunkNext f (ChunkSt.inChunk remain) { s1 with buf := bufPush s1.buf d }
    else
      let consume := min remain s.buf.length
      let data := (bufData s.buf).take consume
      let s1 := { s with buf := bufPop s.buf consume }
      some (Except.ok (data,
        if remain - consume = 0 then ChunkSt.afterBody else ChunkSt.inChunk (remain - consume),
        s1))

/-- One `read()` call of a body reader against the shared buffer and
connection. Returns `none` on fuel exhaustion (only the chunked generator
can consume fuel), `Except.error` for a thrown plain `Error`. -/
def bodyRead (fuel : Nat) :
    BodySrc → SState → Option (Except String (List Nat × BodySrc × SState))
  | BodySrc.memory d done, s =>
    if done then some (Except.ok ([], BodySrc.memory d true, s))
    else some (Except.ok (d, BodySrc.memory d true, s))
  | BodySrc.connLength remain, s =>
    if remain = 0 then some (Except.ok ([], BodySrc.connLength 0, s))
    else
      match (if s.buf.length = 0 then
              let (d, s1) := soReadS s
              if d = [] then none
              else some { s1 with buf := bufPush s1.buf d }
            else some s) with
      | none => some (Except.error "Unexpected EOF from HTTP body")
      | some s2 =>
        let consume := min s2.buf.length remain
        let data := (bufData s2.buf).take consume
        some (Except.ok (data, BodySrc.connLength (remain - consume),
          { s2 with buf := bufPop s2.buf consume }))
  | BodySrc.connEOF, s =>
    let r := eofLoop s.buf s.conn s.trace
    some (Except.ok (r.1.data, BodySrc.connEOF, ⟨r.1, r.2.1, r.2.2⟩))
  | BodySrc.chunkGen st, s =>
    (chunkNext fuel st s).map (Except.map fun x => (x.1, BodySrc.chunkGen x.2.1, x.2.2))
  | BodySrc.pureGen pending, s =>
    match pending with
    | [] => some (Except.ok ([], BodySrc.pureGen [], s))
    | c :: cs => some (Except.ok (c, BodySrc.pureGen cs, s))

/-- Drive the `readChunks` generator through `readerFromGenerator` reads
until the terminating empty chunk, collecting the yielded chunks. -/
def runChunks : Nat → ChunkSt → SState → Option (Except String (List (List Nat) × SState))
  | 0, _, _ => none
  | f + 1, st, s =>
    match chunkNext f st s with
    | none => none
    | some (Except.error m) => some (Except.error m)
    | some (Except.ok (d, st2, s2)) =>
      if d = [] then some (Except.ok ([], s2))
      else (runChunks f st2 s2).map (Except.map fun r => (d :: r.1, r.2))

/-! ## Response writing -/

/-- Status-code to reason-phrase table of `encodeHTTPResp`; an unknown code
throws a plain `Error`. -/
def reasonPhrase (code : Nat) : Option (List Nat) :=
  if code = 200 then some (latin1 "OK")
  else if code = 400 then some (latin1 "Bad Request")
  else if code = 413 then some (latin1 "Request Entity Too Large")
  else if code = 501 then some (latin1 "Not Implemented")
  else none

/-- `encodeHTTPResp`: status line, each header followed by CRLF, blank line. -/
def encodeHTTPResp (code : Nat) (headers : List (List Nat)) : Option (List Nat) :=
  (reasonPhrase code).map fun reason =>
    (latin1 "HTTP/1.1 " ++ decRep code ++ latin1 " " ++ reason ++ latin1 "\r\n")
      ++ (headers.map (fun h => h ++ latin1 "\r\n")).flatten
      ++ latin1 "\r\n"

/-- The chunked wrapping of `writeHTTPResp`:
`Buffer.concat([size.toString(16), crlf, data, crlf])`. -/
def wrapChunk (d : List Nat) : List Nat :=
  hexRep d.length ++ latin1 "\r\n" ++ d ++ latin1 "\r\n"

/-- The body-streaming loop of `writeHTTPResp`: read, mark `last` on the
empty chunk, wrap when the declared length is negative, write whenever the
(possibly wrapped) data is non-empty. Note the wrapped terminal chunk is
`0\r\n\r\n`, which is non-empty and therefore written. -/
def writeBodyLoop : Nat → Int → BodySrc → SState → Option (Except String (BodySrc × SState))
  | 0, _, _, _ => none
  | f + 1, len, src, s =>
    match bodyRead f src s with
    | none => none
    | some (Except.error m) => some (Except.error m)
    | some (Except.ok (d, src2, s2)) =>
      let out := if len < 0 then wrapChunk d else d
      let s3 := if out = [] then s2 else soWriteS out s2
      if d = [] then some (Except.ok (src2, s3)) else writeBodyLoop f len src2 s3

/-- `writeHTTPResp`: append `Transfer-Encoding: chunked` or the computed
`Content-Length` header, write the encoded head, then stream the body. -/
def writeHTTPRespS (fuel : Nat) (resp : HTTPRes) (s : SState) :
    Option (Except String (BodySrc × SState)) :=
  let hs := resp.headers ++
    [if resp.body.length < 0 then latin1 "Transfer-Encoding: chunked"
     else latin1 "Content-Length: " ++ decRep resp.body.length.toNat]
  match encodeHTTPResp resp.code hs with
  | none => some (Except.error "Unknown status code")
  | some enc => writeBodyLoop fuel resp.body.length resp.body.src (soWriteS enc s)

/-- The 100 chunks of `countSheep` (timer delays are unobservable here). -/
def sheepChunks : List (List Nat) := (List.range 100).map fun i => decRep i ++ [10]

/-- `handleReq`: route on the uri. The boolean records whether the response
body is the request body object itself (the `/echo` aliasing), so the serve
loop can observe its post-write state. -/
def handleReq (req : HTTPReq) (body : BodyReader) : HTTPRes × Bool :=
  if req.uri = latin1 "/echo" then
    (⟨200, [latin1 "Server: my_first_http_server"], body⟩, true)
  else if req.uri = latin1 "/sheep" then
    (⟨200, [latin1 "Server: my_first_http_server"], ⟨-1, BodySrc.pureGen sheepChunks⟩⟩, false)
  else
    (⟨200, [latin1 "Server: my_first_http_server"], readerFromMemory (latin1 "hello world.\n")⟩,
      false)

/-- The `while ((await reqBody.read()).length > 0) {}` drain loop. -/
def drainBody : Nat → BodySrc → SState → Option (Except String (BodySrc × SState))
  | 0, _, _ => none
  | f + 1, src, s =>
    match bodyRead f src s with
    | none => none
    | some (Except.error m) => some (Except.error m)
    | some (Except.ok (d, src2, s2)) =>
      if d = [] then some (Except.ok (src2, s2)) else drainBody f src2 s2

/-- `serveClient`: the per-connection server loop. Each iteration tries to
cut a request out of the buffer (pipelining); on "need more data" it
performs one `soRead`, closing cleanly on EOF with an empty buffer and
throwing 400 on EOF with a partial message; on a parsed request it builds
the body reader, dispatches, writes the response, returns if the version
equals the string `1.0`, and otherwise drains the request body and loops. -/
def serveClient : Nat → SState → SrvRes × SState
  | 0, s => (SrvRes.timeout, s)
  | f + 1, s =>
    match cutMessage s.buf with
    | Except.error e => (SrvRes.httpErr e.code e.message, s)
    | Except.ok none =>
      let (d, s1) := soReadS s
      let s2 := { s1 with buf := bufPush s1.buf d }
      if d = [] then
        if s2.buf.length = 0 then (SrvRes.clean, s2)
        else (SrvRes.httpErr 400 "Expected EOF.", s2)
      else serveClient f s2
    | Except.ok (some (msg, buf1)) =>
      let s2 := { s with buf := buf1 }
      match readerFromReq msg with
      | Except.error e => (SrvRes.httpErr e.code e.message, s2)
      | Except.ok reqBody =>
        let pr := handleReq msg reqBody
        match writeHTTPRespS f pr.1 s2 with
        | none => (SrvRes.timeout, s2)
        | some (Except.error m) => (SrvRes.ioErr m, s2)
        | some (Except.ok (src2, s3)) =>
          let reqBody2 := if pr.2 then BodyReader.mk reqBody.length src2 else reqBody
          if msg.version = latin1 "1.0" then (SrvRes.clean, s3)
          else
            match drainBody f reqBody2.src s3 with
            | none => (SrvRes.timeout, s3)
            | some (Except.error m) => (SrvRes.ioErr m, s3)
            | some (Except.ok (_, s4)) => serveClient f s4

/-- The claim-relevant projection of a `serveClient` run: its result, the
ordered read/write trace, and the unconsumed deliveries. -/
def serveView (r : SrvRes × SState) : SrvRes × List Ev × List (List Nat) :=
  (r.1, r.2.trace, r.2.conn)

/-! ## ByteBuffer operation sequences (for the algebraic buffer claim) -/

/-- A buffer operation: one `bufPush` or one `bufPop`. -/
inductive BufOp where
  | push : List Nat → BufOp
  | pop : Nat → BufOp
deriving DecidableEq, Repr

/-- Apply one operation to a buffer. -/
def applyOp (buf : DynBuf) : BufOp → DynBuf
  | BufOp.push d => bufPush buf d
  | BufOp.pop n => bufPop buf n

/-- Apply a sequence of operations left to right. -/
def applyOps (buf : DynBuf) (ops : List BufOp) : DynBuf := ops.foldl applyOp buf

/-- The specification-level effect of one operation on the byte sequence. -/
def modelOp (m : List Nat) : BufOp → List Nat
  | BufOp.push d => m ++ d
  | BufOp.pop n => m.drop n

/-- Specification-level effect of a sequence of operations. -/
def applyModel (m : List Nat) (ops : List BufOp) : List Nat := ops.foldl modelOp m

/-- Caller contract: every eviction count stays within the logical length
available at that point (the source documents `n ≤ length` as a caller
obligation of `bufPop`). -/
def opsValid : Nat → List BufOp → Bool
  | _, [] => true
  | len, BufOp.push d :: rest => opsValid (len + d.length) rest
  | len, BufOp.pop n :: rest => decide (n ≤ len) && opsValid (len - n) rest

/-- Concatenation of all pushed byte strings of a sequence. -/
def pushJoin : List BufOp → List Nat
  | [] => []
  | BufOp.push d :: r => d ++ pushJoin r
  | BufOp.pop _ :: r => pushJoin r

/-- Total evicted count of a sequence. -/
def popSum : List BufOp → Nat
  | [] => 0
  | BufOp.push _ :: r => popSum r
  | BufOp.pop n :: r => n + popSum r

theorem applyOps_data : ∀ (ops : List BufOp) (buf : DynBuf),
    buf.length ≤ buf.data.length → opsValid buf.length ops = true →
    bufData (applyOps buf ops) = applyModel (bufData buf) ops ∧
    (applyOps buf ops).length ≤ (applyOps buf ops).data.length := by
  intro ops
  induction ops with
  | nil => intro buf h1 _; exact ⟨rfl, h1⟩
  | cons op rest ih =>
    intro buf h1 h2
    cases op with
    | push d =>
      have hv : opsValid (buf.length + d.length) rest = true := by
        simpa [opsValid] using h2
      have hinv2 : (bufPush buf d).length ≤ (bufPush buf d).data.length := by
        rw [bufPush_length]; exact bufPush_cap_ge buf d
      have hrec := ih (bufPush buf d) hinv2 (by rw [bufPush_length]; exact hv)
      refine ⟨?_, hrec.2⟩
      show bufData (applyOps (bufPush buf d) rest) = applyModel (bufData buf ++ d) rest
      rw [hrec.1, bufPush_data buf d h1]
    | pop n =>
      have hle : n ≤ buf.length := by
        have := h2
        simp only [opsValid, Bool.and_eq_true, decide_eq_true_eq] at this
        exact this.1
      have hv : opsValid (buf.length - n) rest = true := by
        simp only [opsValid, Bool.and_eq_true, decide_eq_true_eq] at h2
        exact h2.2
      have hinv2 : (bufPop buf n).length ≤ (bufPop buf n).data.length := by
        rw [bufPop_length, bufPop_storeLen]; omega
      have hrec := ih (bufPop buf n) hinv2 (by rw [bufPop_length]; exact hv)
      refine ⟨?_, hrec.2⟩
      show bufData (applyOps (bufPop buf n) rest) = applyModel ((bufData buf).drop n) rest
      rw [hrec.1, bufPop_data buf n h1]

theorem applyOps_cap_mono : ∀ (ops : List BufOp) (buf : DynBuf),
    buf.data.length ≤ (applyOps buf ops).data.length := by
  intro ops
  induction ops with
  | nil => intro buf; exact Nat.le_refl _
  | cons op rest ih =>
    intro buf
    cases op with
    | push d =>
      exact Nat.le_trans (bufPush_cap_mono buf d) (ih (bufPush buf d))
    | pop n =>
      have h := ih (bufPop buf n)
      rw [bufPop_storeLen] at h
      exact h

theorem applyModel_formula : ∀ (ops : List BufOp) (m : List Nat),
    opsValid m.length ops = true →
    applyModel m ops = (m ++ pushJoin ops).drop (popSum ops) := by
  intro ops
  induction ops with
  | nil => intro m _; simp [applyModel, pushJoin, popSum]
  | cons op rest ih =>
    intro m h
    cases op with
    | push d =>
      have hv : opsValid (m ++ d).length rest = true := by
        simpa [opsValid, List.length_append] using h
      show applyModel (m ++ d) rest = _
      rw [ih (m ++ d) hv]
      simp [pushJoin, popSum, List.append_assoc]
    | pop n =>
      simp only [opsValid, Bool.and_eq_true, decide_eq_true_eq] at h
      have hv : opsValid (m.drop n).length rest = true := by
        rw [List.length_drop]; exact h.2
      show applyModel (m.drop n) rest = _
      rw [ih (m.drop n) hv]
      simp only [pushJoin, popSum]
      rw [← List.drop_drop]
      rw [List.drop_append_of_le_length h.1]

theorem opsValid_take : ∀ (ops : List BufOp) (i len : Nat),
    opsValid len ops = true → opsValid len (ops.take i) = true := by
  intro ops
  induction ops with
  | nil => intro i len _; simp [opsValid]
  | cons op rest ih =>
    intro i len h
    cases i with
    | zero => simp [opsValid]
    | succ j =>
      cases op with
      | push d =>
        simp only [List.take_succ_cons, opsValid]
        exact ih j _ (by simpa [opsValid] using h)
      | pop n =>
        simp only [opsValid, Bool.and_eq_true, decide_eq_true_eq] at h
        simp only [List.take_succ_cons, opsValid, Bool.and_eq_true, decide_eq_true_eq]
        exact ⟨h.1, ih j _ h.2⟩

/-- Test harness composing the source pipeline for a fixed-length body:
frame and parse the raw bytes, construct the body reader, then perform two
reads against the leftover buffer; the projection keeps the declared
length, the chosen strategy and the two read results. -/
def lenPipeline (raw : List Nat) : Option (Int × BodySrc × Option (List Nat × Option (List Nat))) :=
  match cutMessage (bufPush ⟨[], 0⟩ raw) with
  | Except.ok (some (req, buf1)) =>
    match readerFromReq req with
    | Except.ok rd =>
      some (rd.length, rd.src,
        match bodyRead 0 rd.src ⟨buf1, [], []⟩ with
        | some (Except.ok (d1, src2, s2)) =>
          some (d1,
            match bodyRead 0 src2 s2 with
            | some (Except.ok (d2, _, _)) => some d2
            | _ => none)
        | _ => none)
    | _ => none
  | _ => none

/-! ## Helper lemmas for the claims -/

theorem wrapChunk_ne_nil (d : List Nat) : wrapChunk d ≠ [] := by
  have h : latin1 "\r\n" = [13, 10] := rfl
  simp [wrapChunk, h]

theorem parseRequestLine_error_code (d : List Nat) (e : HTTPError)
    (h : parseRequestLine d = Except.error e) : e.code = 400 := by
  unfold parseRequestLine at h
  split at h
  · injection h with h1; rw [← h1]
  · split at h
    · injection h with h1; rw [← h1]
    · cases h

theorem parseHTTPReq_error_code (d : List Nat) (e : HTTPError)
    (h : parseHTTPReq d = Except.error e) : e.code = 400 := by
  unfold parseHTTPReq at h
  split at h
  next e2 he =>
    injection h with h1
    rw [← h1]
    exact parseRequestLine_error_code _ _ he
  next he =>
    split at h
    · cases h
    · injection h with h1; rw [← h1]

theorem findSub_rep97 (n : Nat) : findSub (List.replicate n 97) (latin1 "\r\n\r\n") = none := by
  induction n with
  | zero => decide
  | succ k ih =>
    have hm : matchesAt (latin1 "\r\n\r\n") (97 :: List.replicate k 97) = false := by
      have hp : latin1 "\r\n\r\n" = [13, 10, 13, 10] := rfl
      simp [matchesAt, hp]
    rw [List.replicate_succ, findSub, hm]
    simp [ih]

theorem writeBodyLoop_pureGen (len : Int) (hlen : len < 0) :
    ∀ (cs : List (List Nat)), (∀ c ∈ cs, c ≠ []) →
    ∀ (fuel : Nat), cs.length + 1 ≤ fuel → ∀ (s : SState),
    writeBodyLoop fuel len (BodySrc.pureGen cs) s =
      some (Except.ok (BodySrc.pureGen [],
        { s with trace := s.trace ++ cs.map (fun c => Ev.wr (wrapChunk c))
            ++ [Ev.wr (wrapChunk [])] })) := by
  intro cs
  induction cs with
  | nil =>
    intro _ fuel hf s
    match fuel, hf with
    | f + 1, _ =>
      simp only [writeBodyLoop, bodyRead]
      rw [if_pos hlen]
      rw [if_neg (wrapChunk_ne_nil [])]
      simp [soWriteS]
  | cons c cs ih =>
    intro hne fuel hf s
    match fuel, hf with
    | f + 1, hf2 =>
      have hc : c ≠ [] := hne c (List.mem_cons_self c cs)
      simp only [writeBodyLoop, bodyRead]
      rw [if_pos hlen]
      rw [if_neg (wrapChunk_ne_nil c)]
      rw [if_neg hc]
      rw [ih (fun x hx => hne x (List.mem_cons_of_mem c hx)) f (by
        simp only [List.length_cons] at hf2; omega)]
      simp [soWriteS, List.append_assoc]

theorem findSub_prefix : ∀ (hay pat : List Nat) (i : Nat), findSub hay pat = some i →
    (hay.drop i).take pat.length = pat := by
  intro hay
  induction hay with
  | nil =>
    intro pat i h
    rw [findSub] at h
    split at h
    next hm =>
      injection h with h1
      subst h1
      simpa [matchesAt] using hm
    next => cases h
  | cons a t ih =>
    intro pat i h
    rw [findSub] at h
    split at h
    next hm =>
      injection h with h1
      subst h1
      simpa [matchesAt] using hm
    next =>
      simp only [Option.map_eq_some'] at h
      obtain ⟨j, hj, hji⟩ := h
      subst hji
      simpa [List.drop_succ_cons] using ih pat j hj

theorem take_two_eq (l : List Nat) (h : l.take 2 = [13, 10]) : ∃ r, l = 13 :: 10 :: r := by
  cases l with
  | nil => simp at h
  | cons a t =>
    cases t with
    | nil => simp at h
    | cons b r =>
      simp only [List.take_succ_cons, List.take] at h
      injection h with h1 h2
      injection h2 with h2 h3
      exact ⟨r, by rw [h1, h2]⟩

theorem take_getLast_13 : ∀ (data : List Nat) (i : Nat) (l2 : List Nat),
    data.drop i = 13 :: l2 → (data.take (i + 1)).getLast? = some 13 := by
  intro data
  induction data with
  | nil => intro i l2 h; simp at h
  | cons a t ih =>
    intro i l2 h
    cases i with
    | zero =>
      simp only [List.drop_zero] at h
      injection h with h1 h2
      subst h1
      simp
    | succ j =>
      simp only [List.drop_succ_cons] at h
      have hlast := ih j l2 h
      have hne : t.take (j + 1) ≠ [] := by
        intro hh; rw [hh] at hlast; simp at hlast
      rw [List.take_succ_cons]
      cases h3 : t.take (j + 1) with
      | nil => exact absurd h3 hne
      | cons c r =>
        rw [h3] at hlast
        rw [List.getLast?_cons_cons]
        exact hlast

theorem getLast_drop : ∀ (l : List Nat) (k : Nat),
    l.drop k = [] ∨ (l.drop k).getLast? = l.getLast? := by
  intro l
  induction l with
  | nil => intro k; left; simp
  | cons a t ih =>
    intro k
    cases k with
    | zero => right; rfl
    | succ j =>
      rw [List.drop_succ_cons]
      cases ih j with
      | inl h => left; exact h
      | inr h =>
        by_cases ht : t.drop j = []
        · left; exact ht
        · right
          rw [h]
          have hne : t ≠ [] := by
            intro hh; rw [hh] at ht; simp at ht
          cases h3 : t with
          | nil => exact absurd h3 hne
          | cons b r => rw [List.getLast?_cons_cons]

theorem splitLinesAux_last13 : ∀ (f : Nat) (data l : List Nat),
    l ∈ splitLinesAux f data → l.getLast? = some 13 := by
  intro f
  induction f with
  | zero => intro data l h; simp [splitLinesAux] at h
  | succ g ih =>
    intro data l h
    rw [splitLinesAux] at h
    split at h
    next => simp at h
    next idx2 hfind =>
      simp only [List.mem_cons] at h
      cases h with
      | inl h =>
        subst h
        have hp : (data.drop idx2).take 2 = [13, 10] :=
          findSub_prefix data (latin1 "\r\n") idx2 hfind
        obtain ⟨r, hr⟩ := take_two_eq _ hp
        exact take_getLast_13 data idx2 (10 :: r) hr
      | inr h => exact ih _ l h

theorem splitLines_last13 (data l : List Nat) (h : l ∈ splitLines data) :
    l.getLast? = some 13 := splitLinesAux_last13 data.length data l h

theorem parseRequestLine_version_drop (data m u v : List Nat)
    (h : parseRequestLine data = Except.ok (m, u, v)) : ∃ k, v = data.drop k := by
  unfold parseRequestLine at h
  split at h
  · cases h
  · split at h
    · cases h
    · injection h with h1
      exact ⟨_, (congrArg (fun t => t.2.2) h1).symm⟩

theorem parseHTTPReq_version_ne (data : List Nat) (req : HTTPReq)
    (h : parseHTTPReq data = Except.ok req) : req.version ≠ latin1 "1.0" := by
  unfold parseHTTPReq at h
  split at h
  next => cases h
  next m u v hline =>
    split at h
    · injection h with h1
      subst h1
      show v ≠ latin1 "1.0"
      cases h0 : splitLines data with
      | nil =>
        rw [h0] at hline
        have : parseRequestLine (([] : List (List Nat)).headD []) =
            Except.error ⟨400, "No method in request line"⟩ := by decide
        rw [this] at hline
        cases hline
      | cons l0 rest =>
        rw [h0] at hline
        have hl0 : l0.getLast? = some 13 :=
          splitLines_last13 data l0 (by rw [h0]; exact List.mem_cons_self l0 rest)
        obtain ⟨k, hk⟩ := parseRequestLine_version_drop _ _ _ _ hline
        simp only [List.headD_cons] at hk
        cases getLast_drop l0 k with
        | inl hempty =>
          rw [hk, hempty]
          intro hc
          exact absurd hc.symm (by decide)
        | inr hlast =>
          rw [hk]
          intro hc
          rw [hc] at hlast
          rw [hl0] at hlast
          have : (latin1 "1.0").getLast? = some 48 := by decide
          rw [this] at hlast
          cases hlast
    · cases h

theorem cutMessage_version_ne (buf : DynBuf) (msg : HTTPReq) (b : DynBuf)
    (h : cutMessage buf = Except.ok (some (msg, b))) : msg.version ≠ latin1 "1.0" := by
  unfold cutMessage at h
  split at h
  · split at h
    · cases h
    · injection h with h1; cases h1
  next idx hfind =>
    split at h
    next => cases h
    next m hp =>
      injection h with h1
      injection h1 with h2
      have hm : m = msg := congrArg Prod.fst h2
      rw [← hm]
      exact parseHTTPReq_version_ne _ _ hp

/-! ## Claim theorems -/

/-- C1: the claim says a request whose version token is `1.0` closes the
connection after its response, and that pipelined HTTP/1.1 requests are
answered from the buffer without another read. The first conjunct refutes
the close rule on the code: `splitLines` keeps the trailing `\r` and
`parseRequestLine` keeps the `HTTP/` prefix, so every request the framer
ever produces has a version ending in the byte 13 — never the string `1.0`
— and the `version === '1.0'` branch of `serveClient` is dead code. The
second conjunct runs the server on `GET / HTTP/1.0`: the response is
written, then the loop performs a further connection read (the final
`Ev.rd []`) instead of closing. The third conjunct shows the parsed
version of that request literally. The last conjunct shows the buffered
pipelining that does hold: with two requests in the buffer, `cutMessage`
yields the first and then the second without any connection involvement. -/
theorem claim_C1_http10_close_never_fires :
    (∀ (buf : DynBuf) (msg : HTTPReq) (b : DynBuf),
      cutMessage buf = Except.ok (some (msg, b)) → msg.version ≠ latin1 "1.0") ∧
    serveView (serveClient 4 ⟨⟨[], 0⟩, [latin1 "GET / HTTP/1.0\r\n\r\n"], []⟩) =
      (SrvRes.clean,
       [Ev.rd (latin1 "GET / HTTP/1.0\r\n\r\n"),
        Ev.wr (latin1 "HTTP/1.1 200 OK\r\nServer: my_first_http_server\r\nContent-Length: 13\r\n\r\n"),
        Ev.wr (latin1 "hello world.\n"),
        Ev.rd []], []) ∧
    ((cutMessage (bufPush ⟨[], 0⟩ (latin1 "GET / HTTP/1.0\r\n\r\n"))).map
        (Option.map fun p => p.1.version)) = Except.ok (some (latin1 "HTTP/1.0\r")) ∧
    ((cutMessage (bufPush ⟨[], 0⟩ (latin1 "GET /x HTTP/1.1\r\n\r\nGET /y HTTP/1.1\r\n\r\n"))).map
        (Option.map fun p => (p.1.uri,
          (cutMessage p.2).map (Option.map fun q => (q.1.uri, q.2.length))))) =
      Except.ok (some (latin1 "/x", Except.ok (some (latin1 "/y", 0)))) :=
  ⟨cutMessage_version_ne, by decide, by decide, by decide⟩

/-- C2: a request parsed from the wire with the header line
`Transfer-Encoding: chunked` does not get the chunked-decode reader:
`splitLines` leaves the trailing `\r` on the header line, `fieldGet` hands
back the value `chunked\r`, the equality with `chunked` fails, and
`readerFromReq` falls through to the read-until-close reader. The second
conjunct shows the chunked branch itself is intact: on a request value
whose header carries no stray `\r`, `readerFromReq` does return the
chunked-generator reader — the defect is in the parse, not the policy. -/
theorem claim_C2_parsed_chunked_request_gets_eof_reader :
    ((cutMessage (bufPush ⟨[], 0⟩
        (latin1 "POST /echo HTTP/1.1\r\nTransfer-Encoding: chunked\r\n\r\n"))).map
      (Option.map fun p => (p.1.headers, readerFromReq p.1))) =
      Except.ok (some ([latin1 "Transfer-Encoding: chunked\r"],
        Except.ok ⟨0, BodySrc.connEOF⟩)) ∧
    readerFromReq ⟨latin1 "POST", latin1 "/echo", latin1 "HTTP/1.1",
        [latin1 "Transfer-Encoding: chunked"]⟩ =
      Except.ok ⟨-1, BodySrc.chunkGen ChunkSt.atSize⟩ :=
  ⟨by decide, by decide⟩

/-- C3 counterexample: the claim says the writer never emits the terminal
`0\r\n\r\n` chunk-end marker. In `writeHTTPResp` the `last` flag is taken
from the unwrapped chunk but the write guard looks at the wrapped data:
the terminal empty chunk is wrapped into `0\r\n\r\n` (five bytes, nonempty)
and therefore written, as this concrete chunked response shows — its final
write is exactly `0\r\n\r\n` = `wrapChunk []`. -/
theorem claim_C3_counterexample_terminal_marker_written :
    (writeHTTPRespS 5 ⟨200, [], ⟨-1, BodySrc.pureGen [latin1 "hi"]⟩⟩ ⟨⟨[], 0⟩, [], []⟩).map
        (Except.map fun r => r.2.trace) =
      some (Except.ok
        [Ev.wr (latin1 "HTTP/1.1 200 OK\r\nTransfer-Encoding: chunked\r\n\r\n"),
         Ev.wr (latin1 "2\r\nhi\r\n"),
         Ev.wr (latin1 "0\r\n\r\n")]) ∧
    wrapChunk [] = latin1 "0\r\n\r\n" :=
  ⟨by decide, by decide⟩

/-- C3 as amended: for every response whose body declares a negative length,
the writer appends `Transfer-Encoding: chunked` to the headers, wraps every
non-terminal chunk as `<size-in-hex>\r\n<bytes>\r\n`, and writes the
terminal empty chunk as the `0\r\n\r\n` chunk-end marker (it is wrapped
like every other chunk and, being nonempty once wrapped, is written). -/
theorem claim_C3_chunked_response_writer (code : Nat) (rp : List Nat)
    (hs : List (List Nat)) (len : Int) (hlen : len < 0) (cs : List (List Nat))
    (hne : ∀ c ∈ cs, c ≠ []) (fuel : Nat) (hf : cs.length + 1 ≤ fuel) (s : SState)
    (hcode : reasonPhrase code = some rp) :
    writeHTTPRespS fuel ⟨code, hs, ⟨len, BodySrc.pureGen cs⟩⟩ s =
      some (Except.ok (BodySrc.pureGen [],
        { s with trace := (s.trace ++
            [Ev.wr ((latin1 "HTTP/1.1 " ++ decRep code ++ latin1 " " ++ rp ++ latin1 "\r\n")
              ++ (((hs ++ [latin1 "Transfer-Encoding: chunked"]).map
                    (fun h => h ++ latin1 "\r\n")).flatten)
              ++ latin1 "\r\n")])
            ++ cs.map (fun c => Ev.wr (wrapChunk c)) ++ [Ev.wr (wrapChunk [])] })) := by
  unfold writeHTTPRespS
  rw [if_pos hlen]
  unfold encodeHTTPResp
  rw [hcode]
  simp only [Option.map_some']
  rw [writeBodyLoop_pureGen len hlen cs hne fuel hf]
  simp [soWriteS, List.append_assoc]

/-- C3 amended, witnessed at a concrete chunked response. -/
theorem claim_C3_chunked_response_writer_witness :
    writeHTTPRespS 5 ⟨200, [], ⟨-1, BodySrc.pureGen [latin1 "hi"]⟩⟩ ⟨⟨[], 0⟩, [], []⟩ =
      some (Except.ok (BodySrc.pureGen [],
        { buf := ⟨[], 0⟩, conn := [],
          trace := (([] : List Ev) ++
            [Ev.wr ((latin1 "HTTP/1.1 " ++ decRep 200 ++ latin1 " " ++ latin1 "OK" ++ latin1 "\r\n")
              ++ ((([] ++ [latin1 "Transfer-Encoding: chunked"]).map
                    (fun h => h ++ latin1 "\r\n")).flatten)
              ++ latin1 "\r\n")])
            ++ [latin1 "hi"].map (fun c => Ev.wr (wrapChunk c)) ++ [Ev.wr (wrapChunk [])] })) :=
  claim_C3_chunked_response_writer 200 (latin1 "OK") [] (-1) (by decide) [latin1 "hi"]
    (by decide) 5 (by decide) ⟨⟨[], 0⟩, [], []⟩ (by decide)

/-- C4: the claim says the chunked decoder pulls more bytes from the
connection when no complete size line is buffered. It does not: on a buffer
holding only `5` (no CRLF) with the rest of the stream still deliverable,
the generator executes `continue` without ever calling `soRead`, so for
every fuel bound it makes no progress and consumes no delivery — an
infinite busy loop where the claim requires a read (first conjunct, over
all fuels). The second conjunct checks the part of the claim the code does
satisfy when every size line is fully buffered: `5\r\nhello\r\n0\r\n\r\n`
decodes to exactly the chunk `hello` followed by completion, with the
buffer fully evicted. -/
theorem claim_C4_chunk_decoder_never_reads_for_size_line :
    (∀ fuel : Nat,
      chunkNext fuel ChunkSt.atSize
        ⟨bufPush ⟨[], 0⟩ (latin1 "5"), [latin1 "\r\nhello\r\n0\r\n\r\n"], []⟩ = none) ∧
    (runChunks 20 ChunkSt.atSize
        ⟨bufPush ⟨[], 0⟩ (latin1 "5\r\nhello\r\n0\r\n\r\n"), [], []⟩).map
        (Except.map fun r => (r.1, bufData r.2.buf, r.2.conn, r.2.trace)) =
      some (Except.ok ([latin1 "hello"], [], [], [])) := by
  constructor
  · intro fuel
    induction fuel with
    | zero => rfl
    | succ f ih =>
      have h : findSub (bufData (bufPush ⟨[], 0⟩ (latin1 "5"))) (latin1 "\r\n") = none := by
        decide
      simp only [chunkNext, h]
      exact ih
  · decide

/-- C5: the claim says the read-until-close reader returns exactly the
accumulated body bytes and then terminates with an empty chunk. The reader
does report declared length 0 (first conjunct), but its `read()` returns
`buf.data` — the whole backing store, capacity padding included — not the
valid bytes: after the single delivery `hello` and EOF it returns a
32-byte buffer (`hello` plus 27 zero bytes), and a second `read()` returns
the same non-empty store again instead of the empty terminator, so the
chunk sequence never terminates. -/
theorem claim_C5_eof_reader_returns_backing_store :
    readerFromConnEOF.length = 0 ∧
    bodyRead 0 BodySrc.connEOF ⟨⟨[], 0⟩, [latin1 "hello", []], []⟩ =
      some (Except.ok (latin1 "hello" ++ List.replicate 27 0, BodySrc.connEOF,
        ⟨⟨latin1 "hello" ++ List.replicate 27 0, 5⟩, [],
         [Ev.rd (latin1 "hello"), Ev.rd []]⟩)) ∧
    latin1 "hello" ++ List.replicate 27 0 ≠ latin1 "hello" ∧
    bodyRead 0 BodySrc.connEOF ⟨⟨latin1 "hello" ++ List.replicate 27 0, 5⟩, [],
        [Ev.rd (latin1 "hello"), Ev.rd []]⟩ =
      some (Except.ok (latin1 "hello" ++ List.replicate 27 0, BodySrc.connEOF,
        ⟨⟨latin1 "hello" ++ List.replicate 27 0, 5⟩, [],
         [Ev.rd (latin1 "hello"), Ev.rd [], Ev.rd []]⟩)) ∧
    latin1 "hello" ++ List.replicate 27 0 ≠ ([] : List Nat) :=
  ⟨rfl, by decide, by decide, by decide, by decide⟩

/-- C10: the claim says the last line produced by splitting a
`\r\n\r\n`-terminated header block is empty, so the asserted invariant
holds. It does not: `splitLines` takes `idx2 + 1` bytes per line, keeping
the `\r`, so for the framed block `GET / HTTP/1.0\r\n\r\n` (whose
terminator the framer finds at index 14) the lines are
`GET / HTTP/1.0\r` and `\r` — the trailing line has length 1, and the
`console.assert` in `parseHTTPReq` is falsified on every request (Node
logs the failed assertion and continues). -/
theorem claim_C10_trailing_line_not_empty :
    findSub (latin1 "GET / HTTP/1.0\r\n\r\n") (latin1 "\r\n\r\n") = some 14 ∧
    splitLines (latin1 "GET / HTTP/1.0\r\n\r\n") =
      [latin1 "GET / HTTP/1.0\r", latin1 "\r"] ∧
    (splitLines (latin1 "GET / HTTP/1.0\r\n\r\n")).getLast? = some (latin1 "\r") ∧
    latin1 "\r" ≠ ([] : List Nat) :=
  ⟨by decide, by decide, by decide, by decide⟩

theorem bufData_length (buf : DynBuf) (h : buf.length ≤ buf.data.length) :
    (bufData buf).length = buf.length := by
  simp only [bufData, List.length_take]
  omega

theorem lenRead_zero (fuel : Nat) (s : SState) :
    bodyRead fuel (BodySrc.connLength 0) s =
      some (Except.ok ([], BodySrc.connLength 0, s)) := by
  simp [bodyRead]

theorem lenRead_buffered (fuel remain : Nat) (s : SState)
    (h1 : 0 < remain) (h2 : 0 < s.buf.length) :
    bodyRead fuel (BodySrc.connLength remain) s =
      some (Except.ok ((bufData s.buf).take (min s.buf.length remain),
        BodySrc.connLength (remain - min s.buf.length remain),
        { s with buf := bufPop s.buf (min s.buf.length remain) })) := by
  simp only [bodyRead]
  rw [if_neg (by omega)]
  rw [if_neg (by omega)]

theorem lenRead_fetch (fuel remain : Nat) (buf : DynBuf) (d : List Nat)
    (ds : List (List Nat)) (tr : List Ev)
    (h1 : 0 < remain) (h2 : buf.length = 0) (h3 : d ≠ []) :
    bodyRead fuel (BodySrc.connLength remain) ⟨buf, d :: ds, tr⟩ =
      some (Except.ok ((bufData (bufPush buf d)).take (min (bufPush buf d).length remain),
        BodySrc.connLength (remain - min (bufPush buf d).length remain),
        ⟨bufPop (bufPush buf d) (min (bufPush buf d).length remain),
         ds, tr ++ [Ev.rd d]⟩)) := by
  simp only [bodyRead, soReadS]
  rw [if_neg (by omega)]
  rw [if_pos h2]
  rw [if_neg h3]

theorem lenRead_eofNil (fuel remain : Nat) (buf : DynBuf) (tr : List Ev)
    (h1 : 0 < remain) (h2 : buf.length = 0) :
    bodyRead fuel (BodySrc.connLength remain) ⟨buf, [], tr⟩ =
      some (Except.error "Unexpected EOF from HTTP body") := by
  simp only [bodyRead, soReadS]
  rw [if_neg (by omega)]
  rw [if_pos h2]
  simp

theorem lenRead_eofEmptyHead (fuel remain : Nat) (buf : DynBuf)
    (ds : List (List Nat)) (tr : List Ev)
    (h1 : 0 < remain) (h2 : buf.length = 0) :
    bodyRead fuel (BodySrc.connLength remain) ⟨buf, [] :: ds, tr⟩ =
      some (Except.error "Unexpected EOF from HTTP body") := by
  simp only [bodyRead, soReadS]
  rw [if_neg (by omega)]
  rw [if_pos h2]
  simp

theorem lenRead_empty_iff (fuel remain : Nat) (s : SState) (d : List Nat)
    (src2 : BodySrc) (s2 : SState) (hinv : s.buf.length ≤ s.buf.data.length)
    (h : bodyRead fuel (BodySrc.connLength remain) s = some (Except.ok (d, src2, s2))) :
    d = [] ↔ remain = 0 := by
  by_cases h0 : remain = 0
  · subst h0
    rw [lenRead_zero] at h
    injection h with h1
    injection h1 with h2
    have hd : d = [] := (congrArg Prod.fst h2).symm
    simp [hd]
  · have hpos : 0 < remain := Nat.pos_of_ne_zero h0
    have hd : d ≠ [] := by
      by_cases hb : 0 < s.buf.length
      · rw [lenRead_buffered fuel remain s hpos hb] at h
        injection h with h1
        injection h1 with h2
        have hdv : d = (bufData s.buf).take (min s.buf.length remain) :=
          (congrArg Prod.fst h2).symm
        have hlen : d.length = min s.buf.length remain := by
          rw [hdv, List.length_take, bufData_length s.buf hinv]
          exact Nat.min_eq_left (Nat.min_le_left _ _)
        have hmin : 0 < min s.buf.length remain := lt_min hb hpos
        intro hnil
        rw [hnil] at hlen
        simp only [List.length_nil] at hlen
        omega
      · have hb0 : s.buf.length = 0 := by omega
        obtain ⟨sbuf, sconn, str⟩ := s
        simp only at hb0 hinv
        cases sconn with
        | nil =>
          rw [lenRead_eofNil fuel remain sbuf str hpos hb0] at h
          simp at h
        | cons d0 ds =>
          by_cases hd0 : d0 = []
          · subst hd0
            rw [lenRead_eofEmptyHead fuel remain sbuf ds str hpos hb0] at h
            simp at h
          · rw [lenRead_fetch fuel remain sbuf d0 ds str hpos hb0 hd0] at h
            injection h with h1
            injection h1 with h2
            have hdv : d = (bufData (bufPush sbuf d0)).take
                (min (bufPush sbuf d0).length remain) := (congrArg Prod.fst h2).symm
            have hcap : (bufPush sbuf d0).length ≤ (bufPush sbuf d0).data.length := by
              rw [bufPush_length]
              exact bufPush_cap_ge sbuf d0
            have hd0pos : 0 < d0.length := List.length_pos.mpr hd0
            have hppos : 0 < (bufPush sbuf d0).length := by
              rw [bufPush_length]
              omega
            have hlen : d.length = min (bufPush sbuf d0).length remain := by
              rw [hdv, List.length_take, bufData_length _ hcap]
              exact Nat.min_eq_left (Nat.min_le_left _ _)
            have hmin : 0 < min (bufPush sbuf d0).length remain := lt_min hppos hpos
            intro hnil
            rw [hnil] at hlen
            simp only [List.length_nil] at hlen
            omega
    constructor
    · intro hdx; exact absurd hdx hd
    · intro hr; exact absurd hr h0

/-- C6: behaviour of the fixed-length body reader, clause by clause:
`read()` with remaining 0 immediately returns the empty chunk and changes
nothing; with remaining positive and a non-empty buffer it consumes and
returns exactly `min(buffered, remaining)` bytes, evicting them and
decrementing remaining; with an empty buffer it performs exactly one
`soRead`, appends the delivery and consumes from it; an empty fetch
(connection exhausted, or an EOF delivery) raises the
"Unexpected EOF from HTTP body" error; a successful `read()` returns the
empty chunk exactly when remaining is 0; and the spec example
`POST /echo HTTP/1.1\r\nContent-Length: 5\r\n\r\nhello` frames to a
declared-length-5 fixed reader whose first read returns `hello` and whose
second returns the empty chunk. -/
theorem claim_C6_fixed_length_reader :
    (∀ (fuel : Nat) (s : SState),
      bodyRead fuel (BodySrc.connLength 0) s =
        some (Except.ok ([], BodySrc.connLength 0, s))) ∧
    (∀ (fuel remain : Nat) (s : SState), 0 < remain → 0 < s.buf.length →
      bodyRead fuel (BodySrc.connLength remain) s =
        some (Except.ok ((bufData s.buf).take (min s.buf.length remain),
          BodySrc.connLength (remain - min s.buf.length remain),
          { s with buf := bufPop s.buf (min s.buf.length remain) }))) ∧
    (∀ (fuel remain : Nat) (buf : DynBuf) (d : List Nat) (ds : List (List Nat)) (tr : List Ev),
      0 < remain → buf.length = 0 → d ≠ [] →
      bodyRead fuel (BodySrc.connLength remain) ⟨buf, d :: ds, tr⟩ =
        some (Except.ok ((bufData (bufPush buf d)).take (min (bufPush buf d).length remain),
          BodySrc.connLength (remain - min (bufPush buf d).length remain),
          ⟨bufPop (bufPush buf d) (min (bufPush buf d).length remain),
           ds, tr ++ [Ev.rd d]⟩))) ∧
    (∀ (fuel remain : Nat) (buf : DynBuf) (tr : List Ev),
      0 < remain → buf.length = 0 →
      bodyRead fuel (BodySrc.connLength remain) ⟨buf, [], tr⟩ =
        some (Except.error "Unexpected EOF from HTTP body")) ∧
    (∀ (fuel remain : Nat) (buf : DynBuf) (ds : List (List Nat)) (tr : List Ev),
      0 < remain → buf.length = 0 →
      bodyRead fuel (BodySrc.connLength remain) ⟨buf, [] :: ds, tr⟩ =
        some (Except.error "Unexpected EOF from HTTP body")) ∧
    (∀ (fuel remain : Nat) (s : SState) (d : List Nat) (src2 : BodySrc) (s2 : SState),
      s.buf.length ≤ s.buf.data.length →
      bodyRead fuel (BodySrc.connLength remain) s = some (Except.ok (d, src2, s2)) →
      (d = [] ↔ remain = 0)) ∧
    lenPipeline (latin1 "POST /echo HTTP/1.1\r\nContent-Length: 5\r\n\r\nhello") =
      some (5, BodySrc.connLength 5, some (latin1 "hello", some [])) :=
  ⟨lenRead_zero, lenRead_buffered, lenRead_fetch, lenRead_eofNil, lenRead_eofEmptyHead,
   lenRead_empty_iff, by decide⟩

/-- C6 witnessed at a concrete state: a reader with 3 bytes remaining over
a buffer holding the two valid bytes of `ab` consumes and returns both. -/
theorem claim_C6_fixed_length_reader_witness :
    bodyRead 0 (BodySrc.connLength 3) ⟨⟨latin1 "ab", 2⟩, [], []⟩ =
      some (Except.ok ((bufData ⟨latin1 "ab", 2⟩).take (min 2 3),
        BodySrc.connLength (3 - min 2 3),
        { buf := bufPop ⟨latin1 "ab", 2⟩ (min 2 3), conn := [], trace := [] })) :=
  claim_C6_fixed_length_reader.2.1 0 3 ⟨⟨latin1 "ab", 2⟩, [], []⟩ (by decide) (by decide)

theorem readerFromReq_veto_cl (req : HTTPReq) (n : Int)
    (hm : req.method = latin1 "GET" ∨ req.method = latin1 "HEAD")
    (hb : bodyLenOf req.headers = Except.ok n) (hn : 0 < n) :
    readerFromReq req = Except.error ⟨400, "HTTP body not allowed."⟩ := by
  simp only [readerFromReq, hb]
  rw [if_pos ⟨hm, Or.inl hn⟩]

theorem readerFromReq_veto_chunked (req : HTTPReq) (n : Int)
    (hm : req.method = latin1 "GET" ∨ req.method = latin1 "HEAD")
    (hb : bodyLenOf req.headers = Except.ok n) (hc : chunkedOf req.headers = true) :
    readerFromReq req = Except.error ⟨400, "HTTP body not allowed."⟩ := by
  simp only [readerFromReq, hb]
  rw [if_pos ⟨hm, Or.inr hc⟩]

theorem readerFromReq_forced_zero (req : HTTPReq) (n : Int)
    (hm : req.method = latin1 "GET" ∨ req.method = latin1 "HEAD")
    (hb : bodyLenOf req.headers = Except.ok n) (hn : n ≤ 0)
    (hc : chunkedOf req.headers = false) :
    readerFromReq req = Except.ok (readerFromConnLength 0) := by
  simp only [readerFromReq, hb]
  rw [if_neg (by
    rintro ⟨-, h2⟩
    cases h2 with
    | inl h3 => omega
    | inr h3 => rw [hc] at h3; cases h3)]
  rw [if_pos hm]
  rw [if_pos (le_refl (0 : Int))]
  rfl

theorem readerFromReq_bad_cl (req : HTTPReq) (v : List Nat)
    (hf : fieldGet req.headers (latin1 "Content-Length") = some v)
    (hp : parseDec v = none) :
    readerFromReq req = Except.error ⟨400, "bad Content-Length."⟩ := by
  have hb : bodyLenOf req.headers = Except.error ⟨400, "bad Content-Length."⟩ := by
    simp only [bodyLenOf, hf, hp]
  simp only [readerFromReq, hb]

/-- C7 counterexample: the claim says that for a GET/HEAD request whose
headers do not declare a positive `Content-Length` or chunked coding, the
body length is forced to 0 (and the only failure mode is the status-400
"body not allowed" error). A parsed GET request whose `Content-Length`
value is the non-numeric `abc` declares neither, yet `readerFromReq`
throws 400 `bad Content-Length.` — a different error, not the forced
length-0 reader — both on the request value and through the framer. -/
theorem claim_C7_counterexample_bad_content_length :
    readerFromReq ⟨latin1 "GET", latin1 "/echo", latin1 "HTTP/1.1\r",
        [latin1 "Content-Length: abc\r"]⟩ =
      Except.error ⟨400, "bad Content-Length."⟩ ∧
    (⟨400, "bad Content-Length."⟩ : HTTPError) ≠ ⟨400, "HTTP body not allowed."⟩ ∧
    (Except.error ⟨400, "bad Content-Length."⟩ : Except HTTPError BodyReader) ≠
      Except.ok (readerFromConnLength 0) ∧
    ((cutMessage (bufPush ⟨[], 0⟩
        (latin1 "GET /echo HTTP/1.1\r\nContent-Length: abc\r\n\r\n"))).map
      (Option.map fun p => (p.1.method, readerFromReq p.1))) =
      Except.ok (some (latin1 "GET", Except.error ⟨400, "bad Content-Length."⟩)) :=
  ⟨by decide, by decide, by decide, by decide⟩

/-- C7 as amended: the GET/HEAD body policy of `readerFromReq`, with the
bad-`Content-Length` failure the code raises first carved out. For a
request whose method is GET or HEAD: a `Content-Length` field whose value
`parseInt` cannot parse fails with status 400 `bad Content-Length.`; a
`Content-Length` parsing to a positive value, or a `Transfer-Encoding`
field equal to `chunked`, fails with status 400 `HTTP body not allowed.`;
otherwise (the `Content-Length` absent, or parsing to a non-positive
value, and no chunked coding) the body length is forced to 0 and the
fixed-length reader with remaining 0 is returned, whose first `read()` is
the empty terminal chunk. The two closed conjuncts run concrete requests
through the code: the spec example `GET /echo` with `Content-Length: 5`
fails with 400 through the framer, and a GET with `Content-Length: 0x10`
(which `parseInt` reads as hexadecimal 16) also fails with
`HTTP body not allowed.`. -/
theorem claim_C7_get_head_body_veto_amended :
    (∀ (req : HTTPReq) (v : List Nat),
      (req.method = latin1 "GET" ∨ req.method = latin1 "HEAD") →
      fieldGet req.headers (latin1 "Content-Length") = some v → parseDec v = none →
      readerFromReq req = Except.error ⟨400, "bad Content-Length."⟩) ∧
    (∀ (req : HTTPReq) (n : Int),
      (req.method = latin1 "GET" ∨ req.method = latin1 "HEAD") →
      bodyLenOf req.headers = Except.ok n → 0 < n →
      readerFromReq req = Except.error ⟨400, "HTTP body not allowed."⟩) ∧
    (∀ (req : HTTPReq) (n : Int),
      (req.method = latin1 "GET" ∨ req.method = latin1 "HEAD") →
      bodyLenOf req.headers = Except.ok n → chunkedOf req.headers = true →
      readerFromReq req = Except.error ⟨400, "HTTP body not allowed."⟩) ∧
    (∀ (req : HTTPReq) (n : Int),
      (req.method = latin1 "GET" ∨ req.method = latin1 "HEAD") →
      bodyLenOf req.headers = Except.ok n → n ≤ 0 → chunkedOf req.headers = false →
      readerFromReq req = Except.ok (readerFromConnLength 0)) ∧
    (∀ (fuel : Nat) (s : SState),
      bodyRead fuel (BodySrc.connLength 0) s =
        some (Except.ok ([], BodySrc.connLength 0, s))) ∧
    ((cutMessage (bufPush ⟨[], 0⟩
        (latin1 "GET /echo HTTP/1.1\r\nContent-Length: 5\r\n\r\n"))).map
      (Option.map fun p => (p.1.method, readerFromReq p.1))) =
      Except.ok (some (latin1 "GET", Except.error ⟨400, "HTTP body not allowed."⟩)) ∧
    readerFromReq ⟨latin1 "GET", latin1 "/echo", latin1 "HTTP/1.1\r",
        [latin1 "Content-Length: 0x10\r"]⟩ =
      Except.error ⟨400, "HTTP body not allowed."⟩ :=
  ⟨fun req v _ hf hp => readerFromReq_bad_cl req v hf hp,
   readerFromReq_veto_cl, readerFromReq_veto_chunked, readerFromReq_forced_zero,
   lenRead_zero, by decide, by decide⟩

/-- C7 amended, witnessed at a concrete request: a GET with only a `Host`
header gets the forced length-0 reader. -/
theorem claim_C7_get_head_body_veto_amended_witness :
    readerFromReq ⟨latin1 "GET", latin1 "/", latin1 "HTTP/1.1\r", [latin1 "Host: a\r"]⟩ =
      Except.ok (readerFromConnLength 0) :=
  claim_C7_get_head_body_veto_amended.2.2.2.1
    ⟨latin1 "GET", latin1 "/", latin1 "HTTP/1.1\r", [latin1 "Host: a\r"]⟩ (-1)
    (Or.inl rfl) (by decide) (by decide) (by decide)

theorem cutMessage_413_iff (buf : DynBuf) :
    cutMessage buf = Except.error ⟨413, "header is too large"⟩ ↔
      (findSub (bufData buf) (latin1 "\r\n\r\n") = none ∧ kMaxHeaderLen ≤ buf.length) := by
  constructor
  · intro h
    unfold cutMessage at h
    cases hf : findSub (bufData buf) (latin1 "\r\n\r\n") with
    | none =>
      rw [hf] at h
      dsimp only at h
      split at h
      next hle => exact ⟨rfl, hle⟩
      next => cases h
    | some idx =>
      rw [hf] at h
      dsimp only at h
      cases hp : parseHTTPReq ((bufData buf).take (idx + 4)) with
      | error e =>
        rw [hp] at h
        have hc := parseHTTPReq_error_code _ _ hp
        injection h with h1
        rw [h1] at hc
        cases hc
      | ok m => rw [hp] at h; cases h
  · intro hpair
    unfold cutMessage
    rw [hpair.1, if_pos hpair.2]

theorem cutMessage_need_more (buf : DynBuf)
    (h1 : findSub (bufData buf) (latin1 "\r\n\r\n") = none)
    (h2 : buf.length < kMaxHeaderLen) : cutMessage buf = Except.ok none := by
  unfold cutMessage
  rw [h1, if_neg (by omega)]

theorem serveClient_413_no_read (f : Nat) (s : SState)
    (h1 : findSub (bufData s.buf) (latin1 "\r\n\r\n") = none)
    (h2 : kMaxHeaderLen ≤ s.buf.length) :
    serveClient (f + 1) s = (SrvRes.httpErr 413 "header is too large", s) := by
  have hcut : cutMessage s.buf = Except.error ⟨413, "header is too large"⟩ :=
    (cutMessage_413_iff s.buf).mpr ⟨h1, h2⟩
  simp only [serveClient, hcut]

/-- C8: the header framer raises status-413 `header is too large` exactly
when the buffered bytes contain no `\r\n\r\n` and the buffered length has
reached the 8192-byte ceiling (first conjunct — parse failures on framed
headers carry status 400, never 413); below the ceiling with no delimiter
it reports "need more data" (`Except.ok none`, second conjunct); and in
that error case the serve loop returns the 413 error with its state — in
particular its read/write trace and pending deliveries — untouched, i.e.
before requesting any further bytes from the connection (third conjunct). -/
theorem claim_C8_header_ceiling_413 :
    (∀ buf : DynBuf,
      cutMessage buf = Except.error ⟨413, "header is too large"⟩ ↔
        (findSub (bufData buf) (latin1 "\r\n\r\n") = none ∧ kMaxHeaderLen ≤ buf.length)) ∧
    (∀ buf : DynBuf, findSub (bufData buf) (latin1 "\r\n\r\n") = none →
      buf.length < kMaxHeaderLen → cutMessage buf = Except.ok none) ∧
    (∀ (f : Nat) (s : SState), findSub (bufData s.buf) (latin1 "\r\n\r\n") = none →
      kMaxHeaderLen ≤ s.buf.length →
      serveClient (f + 1) s = (SrvRes.httpErr 413 "header is too large", s)) :=
  ⟨cutMessage_413_iff, cutMessage_need_more, serveClient_413_no_read⟩

/-- C8 witnessed at a concrete buffer of 8192 `a` bytes and no delimiter:
the framer raises 413 and one serve iteration returns it with no read. -/
theorem claim_C8_header_ceiling_413_witness :
    cutMessage ⟨List.replicate 8192 97, 8192⟩ =
      Except.error ⟨413, "header is too large"⟩ ∧
    serveClient 1 ⟨⟨List.replicate 8192 97, 8192⟩, [], []⟩ =
      (SrvRes.httpErr 413 "header is too large", ⟨⟨List.replicate 8192 97, 8192⟩, [], []⟩) := by
  have hdata : bufData ⟨List.replicate 8192 97, 8192⟩ = List.replicate 8192 97 := by
    show List.take 8192 (List.replicate 8192 97) = List.replicate 8192 97
    rw [List.take_replicate]
    norm_num
  have hfind : findSub (bufData ⟨List.replicate 8192 97, 8192⟩) (latin1 "\r\n\r\n") = none := by
    rw [hdata]
    exact findSub_rep97 8192
  exact ⟨(claim_C8_header_ceiling_413.1 _).mpr ⟨hfind, Nat.le_refl _⟩,
    claim_C8_header_ceiling_413.2.2 0 ⟨⟨List.replicate 8192 97, 8192⟩, [], []⟩ hfind
      (Nat.le_refl _)⟩

/-- C9: the ByteBuffer algebra. For every operation sequence starting from
the empty buffer whose evictions stay within the logical length, after each
step (every prefix `ops.take i`) the valid bytes equal the concatenation of
all pushed byte strings with the total evicted prefix dropped; the capacity
of the backing store never decreases across any operation sequence; after
any `bufPush` the capacity is at least the logical length; and when a push
grows the store the new capacity is a power-of-two multiple of
`max capacity 32` (doubling from the floor of 32) that covers the new
length. -/
theorem claim_C9_bytebuffer_algebra :
    (∀ (ops : List BufOp) (i : Nat), opsValid 0 ops = true →
      bufData (applyOps ⟨[], 0⟩ (ops.take i)) =
        (pushJoin (ops.take i)).drop (popSum (ops.take i))) ∧
    (∀ (ops : List BufOp) (buf : DynBuf),
      buf.data.length ≤ (applyOps buf ops).data.length) ∧
    (∀ (buf : DynBuf) (d : List Nat),
      (bufPush buf d).length ≤ (bufPush buf d).data.length) ∧
    (∀ (buf : DynBuf) (d : List Nat), buf.data.length < buf.length + d.length →
      ∃ k, (bufPush buf d).data.length = max buf.data.length 32 * 2 ^ k ∧
        buf.length + d.length ≤ (bufPush buf d).data.length) := by
  refine ⟨?_, ?_, ?_, ?_⟩
  · intro ops i hv
    have hvt : opsValid 0 (ops.take i) = true := opsValid_take ops i 0 hv
    have h := applyOps_data (ops.take i) ⟨[], 0⟩ (Nat.le_refl 0) hvt
    rw [h.1]
    have h2 := applyModel_formula (ops.take i) [] hvt
    show applyModel [] (ops.take i) = _
    rw [h2]
    simp
  · intro ops buf
    exact applyOps_cap_mono ops buf
  · intro buf d
    rw [bufPush_length]
    exact bufPush_cap_ge buf d
  · intro buf d hlt
    have hs := bufPush_storeLen buf d
    rw [if_pos hlt] at hs
    obtain ⟨k, hk⟩ :=
      growCapAux_pow (buf.length + d.length) (max buf.data.length 32) (buf.length + d.length)
    refine ⟨k, ?_, ?_⟩
    · rw [hs]; exact hk
    · rw [hs]; exact growCap_ge_target _ _ (by omega)

/-- C9 witnessed on the sequence push `abc`, evict 1, push `de`: the valid
bytes are `bcde`. -/
theorem claim_C9_bytebuffer_algebra_witness :
    bufData (applyOps ⟨[], 0⟩
      [BufOp.push (latin1 "abc"), BufOp.pop 1, BufOp.push (latin1 "de")]) = latin1 "bcde" := by
  have h := claim_C9_bytebuffer_algebra.1
    [BufOp.push (latin1 "abc"), BufOp.pop 1, BufOp.push (latin1 "de")] 3 (by decide)
  exact h.trans (by decide)
